import Mathlib

/-!
Shallow embedding of munkipkg.py, centered on the build-info resolver
(`validate_build_info_keys`, `read_build_info`, `default_build_info`,
`get_build_info`) and the Bom.txt filesystem reconciler
(`sync_from_bom_info`).  Strings are manipulated at the `List Char`
level to mirror the Python string operations the source uses.
-/

/-- Python `str.rstrip` with a single-character argument: strip every
trailing occurrence of that character. -/
def rstripChar (c : Char) (l : List Char) : List Char :=
  (l.reverse.dropWhile (fun x => x = c)).reverse

/-- Python `str.split` with a one-character separator: split on every
occurrence, keeping empty fields. -/
def splitOnChar (c : Char) : List Char → List (List Char)
  | [] => [[]]
  | x :: r =>
    match splitOnChar c r with
    | [] => [[]]
    | g :: gs => if x = c then [] :: g :: gs else (x :: g) :: gs

/-- The Python slice `s[-n:]`: the last `n` characters (the whole string
when it is shorter than `n`). -/
def takeLast (n : Nat) (l : List Char) : List Char :=
  l.drop (l.length - n)

/-- One digit of a numeral in the given base (only bases up to 10 occur:
8 and 10). -/
def decDigit? (base : Nat) (c : Char) : Option Nat :=
  if 48 ≤ c.toNat ∧ c.toNat < 48 + base then some (c.toNat - 48) else none

/-- Value of a non-empty all-digit string in the given base. -/
def digitsVal? (base : Nat) (l : List Char) : Option Nat :=
  if l = [] then none
  else
    l.foldl
      (fun acc c =>
        match acc, decDigit? base c with
        | some a, some d => some (a * base + d)
        | _, _ => none)
      (some 0)

/-- Python `int(s)`: an optional sign followed by decimal digits.
(The whitespace/underscore forms `int` also accepts never occur in
tab-separated Bom.txt fields.) -/
def pyInt? (l : List Char) : Option Int :=
  match l with
  | '-' :: r => (digitsVal? 10 r).map (fun n => -(n : Int))
  | '+' :: r => (digitsVal? 10 r).map (fun n => (n : Int))
  | _ => (digitsVal? 10 l).map (fun n => (n : Int))

/-- Python `int(s, 8)` on a bare octal digit string. -/
def pyOct? (l : List Char) : Option Nat :=
  digitsVal? 8 l

/-- Python `str.partition('/')`: the text before the first slash and,
when a slash occurs, the text after it (`none` when there is no slash,
making the third component the empty string). -/
def partitionSlash : List Char → List Char × Option (List Char)
  | [] => ([], none)
  | c :: r =>
    if c = '/' then ([], some r)
    else
      let p := partitionSlash r
      (c :: p.1, p.2)

/-- `posixpath.basename`: the part after the last slash. -/
def basenameL (l : List Char) : List Char :=
  (l.reverse.takeWhile (fun c => c ≠ '/')).reverse

/-- `p[:p.rfind('/') + 1]`: everything up to and including the last
slash (empty when there is no slash). -/
def dirHeadL (l : List Char) : List Char :=
  (l.reverse.dropWhile (fun c => c ≠ '/')).reverse

/-- `posixpath.dirname`. -/
def dirnameL (l : List Char) : List Char :=
  let head := dirHeadL l
  if head ≠ [] ∧ ¬ head.all (fun c => c = '/') then rstripChar '/' head else head

/-- `posixpath.join` on two components. -/
def pjoin (a b : String) : String :=
  if (['/']).isPrefixOf b.data then b
  else if a.data = [] ∨ (['/']).isSuffixOf a.data then ⟨a.data ++ b.data⟩
  else ⟨a.data ++ '/' :: b.data⟩

/-- The Python `in` operator on strings: substring containment. -/
def containsSub (pat : List Char) : List Char → Bool
  | [] => pat.isEmpty
  | s@(_ :: r) => pat.isPrefixOf s || containsSub pat r

/-- Python `str.replace` with the scan bounded by a fuel argument (the
fuel drops by one per step while each step consumes at least one
character, so `fuel = s.length` always suffices). -/
def pyReplaceFuel (pat rep : List Char) : Nat → List Char → List Char
  | 0, s => s
  | fuel + 1, s =>
    match s with
    | [] => []
    | c :: r =>
      if pat ≠ [] ∧ pat.isPrefixOf (c :: r) then
        rep ++ pyReplaceFuel pat rep fuel ((c :: r).drop pat.length)
      else c :: pyReplaceFuel pat rep fuel r

/-- Python `str.replace`: substitute every non-overlapping occurrence,
scanning left to right.  The source's call sites use fixed non-empty
patterns. -/
def pyReplace (pat rep s : List Char) : List Char :=
  pyReplaceFuel pat rep s.length s

/-- A Python value as it appears in a parsed build-info file: the
values relevant to validation and templating are strings, booleans and
integers. -/
inductive PyVal
  | str (s : String)
  | bool (b : Bool)
  | int (n : Int)
deriving DecidableEq

/-- Python `==` between `PyVal`s (`True == 1` and `False == 0` hold
across the bool/int divide). -/
def pyEq : PyVal → PyVal → Bool
  | PyVal.str a, PyVal.str b => a == b
  | PyVal.bool a, PyVal.bool b => a == b
  | PyVal.int a, PyVal.int b => a == b
  | PyVal.bool a, PyVal.int b => (if a then (1 : Int) else 0) == b
  | PyVal.int a, PyVal.bool b => a == (if b then (1 : Int) else 0)
  | _, _ => false

/-- Python `str()` of a value. -/
def pyStr : PyVal → String
  | PyVal.str s => s
  | PyVal.bool b => if b then ("True") else ("False")
  | PyVal.int n => toString n

/-- A Python dict with string keys, in insertion order. -/
abbrev PyDict : Type := List (String × PyVal)

/-- Dict lookup (string keys are unique in well-formed dicts; the first
binding wins). -/
def dictGet : PyDict → String → Option PyVal
  | [], _ => none
  | (k, v) :: r, q => if k = q then some v else dictGet r q

/-- Dict assignment `d[k] = v`: overwrite in place when the key exists,
append otherwise (Python preserves insertion order). -/
def dictSet (d : PyDict) (k : String) (v : PyVal) : PyDict :=
  if (dictGet d k).isSome then
    d.map (fun kv => if kv.fst = k then (k, v) else kv)
  else d ++ [(k, v)]

/-- One parsed Bom.txt record: the normalized payload-relative path, the
raw mode string, the declared owner and group, and the permission bits
decoded from the last four octal digits of the mode string. -/
structure BomEntry where
  path : String
  fullMode : String
  uid : Int
  gid : Int
  perm : Nat
deriving DecidableEq

/-- Outcome of decoding one Bom.txt line. -/
inductive ParseRes
  /-- All fields present and numeric fields parse. -/
  | ok (e : BomEntry)
  /-- `int()` raised `ValueError` (caught by the reconciler's handler). -/
  | valueErr
  /-- Fewer than three tab-separated fields: `parts[1]` / `parts[2]`
  raise `IndexError`, which nothing in the source catches. -/
  | indexErr
deriving DecidableEq

/-- Decode one line of Bom.txt exactly as the loop body of
`sync_from_bom_info` does: rstrip newlines, split on tabs, normalize a
leading `./`, parse `uid`, `gid` and the octal mode in that order. -/
def parseBomLine (line : String) : ParseRes :=
  match splitOnChar '\t' (rstripChar '\n' line.data) with
  | [] => ParseRes.indexErr
  | p0 :: rest =>
    let path := if (['.', '/']).isPrefixOf p0 then p0.drop 2 else p0
    match rest with
    | [] => ParseRes.indexErr
    | p1 :: rest2 =>
      match rest2 with
      | [] => ParseRes.indexErr
      | p2 :: _ =>
        let ug := partitionSlash p2
        match pyInt? ug.1 with
        | none => ParseRes.valueErr
        | some du =>
          match pyInt? (ug.2.getD []) with
          | none => ParseRes.valueErr
          | some dg =>
            match pyOct? (takeLast 4 p1) with
            | none => ParseRes.valueErr
            | some dm =>
              ParseRes.ok { path := ⟨path⟩, fullMode := ⟨p1⟩, uid := du, gid := dg, perm := dm }

/-- The literal version placeholder recognized in `name` values
(written with escaped braces). -/
def verPlaceholder : List Char := ("$\x7bversion\x7d").data

/-- The closed sets of legal values for enum-valued build-info keys, in
the source's iteration order. -/
def valid_values : List (String × List PyVal) :=
  [ (("ownership"),
      [PyVal.str ("recommended"), PyVal.str ("preserve"), PyVal.str ("preserve-other")]),
    (("postinstall_action"),
      [PyVal.str ("none"), PyVal.str ("logout"), PyVal.str ("restart")]),
    (("suppress_bundle_relocation"), [PyVal.bool true, PyVal.bool false]),
    (("distribution_style"), [PyVal.bool true, PyVal.bool false]),
    (("preserve_xattr"), [PyVal.bool true, PyVal.bool false]) ]

/-- The Python `in` operator on a list of values. -/
def pyMem (v : PyVal) (l : List PyVal) : Bool :=
  l.any (fun w => pyEq v w)

/-- `validate_build_info_keys`: every enum-valued key present in the
dict must carry one of its legal values; the first illegal value makes
the result `false` (the source also prints two ERROR lines and
short-circuits, which only affects output). -/
def validate_build_info_keys (d : PyDict) : Bool :=
  valid_values.all
    (fun kv =>
      match dictGet d kv.fst with
      | some v => pyMem v kv.snd
      | none => true)

/-- Outcome of `read_build_info` on an already-parsed dict (parse
failures of the on-disk encodings are handled by the caller model in
`get_build_info`). -/
inductive ReadRes
  /-- Returns the dict, with the name template resolved. -/
  | ok (d : PyDict)
  /-- An uncaught `KeyError` on the named key. -/
  | keyErr (k : String)
  /-- An uncaught `TypeError` (`in` applied to a non-string name). -/
  | typeErr
deriving DecidableEq

/-- `read_build_info`, from the successful-parse point on: the result of
`validate_build_info_keys` is computed but ignored (as in the source),
then the `name` value has every occurrence of the version placeholder
replaced by `str(version)`. -/
def read_build_info (d : PyDict) : ReadRes :=
  let _valid := validate_build_info_keys d
  match dictGet d ("name") with
  | none => ReadRes.keyErr ("name")
  | some (PyVal.str n) =>
    if containsSub verPlaceholder n.data then
      match dictGet d ("version") with
      | none => ReadRes.keyErr ("version")
      | some v =>
        ReadRes.ok (dictSet d ("name") (PyVal.str ⟨pyReplace verPlaceholder (pyStr v).data n.data⟩))
    else ReadRes.ok d
  | some _ => ReadRes.typeErr

/-- `default_build_info`: hard-coded defaults keyed off the project
directory's basename (with spaces removed), in insertion order. -/
def default_build_info (project_dir : String) : PyDict :=
  let basename : String := ⟨pyReplace ([' ']) ([]) (basenameL (rstripChar '/' project_dir.data))⟩
  [ (("ownership"), PyVal.str ("recommended")),
    (("suppress_bundle_relocation"), PyVal.bool true),
    (("postinstall_action"), PyVal.str ("none")),
    (("preserve_xattr"), PyVal.bool false),
    (("name"), PyVal.str (basename ++ ("-$\x7bversion\x7d.pkg"))),
    (("identifier"), PyVal.str (("com.github.munki.pkg.") ++ basename)),
    (("install_location"), PyVal.str ("/")),
    (("version"), PyVal.str ("1.0")),
    (("distribution_style"), PyVal.bool false) ]

/-- Metadata of one payload-tree node as `os.lstat` reports it: the
permission bits (`stat.S_IMODE`), owner and group. -/
structure FMeta where
  perm : Nat
  uid : Int
  gid : Int
deriving DecidableEq

/-- On-disk state of a project directory, as far as the modelled code
observes it: the build-info candidates (outer `none` = file absent,
inner `none` = present but fails to parse), the Bom.txt file, the
payload tree keyed by full path, and the process's effective uid/gid. -/
structure Project where
  projectDir : String
  plistData : Option (Option PyDict)
  jsonData : Option (Option PyDict)
  yamlData : Option (Option PyDict)
  ymlData : Option (Option PyDict)
  bomExists : Bool
  bomLines : List String
  payload : List (String × FMeta)
  euid : Int
  egid : Int

/-- The command-line options the modelled functions consult. -/
structure Opts where
  quiet : Bool
  yaml : Bool
  json : Bool
deriving DecidableEq

/-- `os.path.exists(build_file + '.' + ext)` plus the file's parse
outcome, for each supported extension. -/
def fileData (p : Project) (ext : String) : Option (Option PyDict) :=
  if ext = ("plist") then p.plistData
  else if ext = ("json") then p.jsonData
  else if ext = ("yaml") then p.yamlData
  else if ext = ("yml") then p.ymlData
  else none

/-- A `MunkiPkgError` raised during build-info resolution. -/
inductive GErr
  /-- "ERROR: Multiple build-info files found!" -/
  | multiple
  /-- "ERROR: No build-info file found!" -/
  | noInfoFile
  /-- `BuildError`: the file exists but is "not a valid ... file". -/
  | invalid
deriving DecidableEq

/-- Outcome of `get_build_info`. -/
inductive GetRes
  | ok (info : PyDict)
  | err (e : GErr)
  /-- uncaught `KeyError` propagating out of `read_build_info` -/
  | keyErr (k : String)
  /-- uncaught `TypeError` propagating out of `read_build_info` -/
  | typeErr
deriving DecidableEq

/-- The probing order of build-info encodings. -/
def file_types : List String := [("plist"), ("json"), ("yaml"), ("yml")]

/-- The discovery loop of `get_build_info`: remember the first existing
candidate; a second existing candidate raises "Multiple build-info
files found!". -/
def probeTypes (p : Project) : List String → Option String → Except GErr (Option String)
  | [], ft => Except.ok ft
  | e :: rest, ft =>
    if (fileData p e).isSome then
      match ft with
      | none => probeTypes p rest (some e)
      | some _ => Except.error GErr.multiple
    else probeTypes p rest ft

/-- The keys `get_build_info` copies from the file over the defaults. -/
def supported_keys : List String :=
  [ ("name"), ("identifier"), ("version"), ("ownership"), ("install_location"),
    ("postinstall_action"), ("preserve_xattr"), ("suppress_bundle_relocation"),
    ("distribution_style"), ("signing_info"), ("notarization_info") ]

/-- `for key in supported_keys: if key in file_info: info[key] = file_info[key]`. -/
def mergeInfo (info fileInfo : PyDict) : PyDict :=
  supported_keys.foldl
    (fun acc k =>
      match dictGet fileInfo k with
      | some v => dictSet acc k v
      | none => acc)
    info

/-- `get_build_info`: defaults, discovery (or the explicit format flag),
file loading via `read_build_info`, and the field-by-field merge. -/
def get_build_info (p : Project) (o : Opts) : GetRes :=
  let info0 := dictSet (default_build_info p.projectDir) ("project_dir") (PyVal.str p.projectDir)
  let ftRes : Except GErr (Option String) :=
    if o.yaml = false ∧ o.json = false then probeTypes p file_types none
    else Except.ok (some (if o.yaml then ("yaml") else if o.json then ("json") else ("plist")))
  match ftRes with
  | Except.error g => GetRes.err g
  | Except.ok ft =>
    match ft with
    | some t =>
      match fileData p t with
      | some parsed =>
        match parsed with
        | none => GetRes.err GErr.invalid
        | some d =>
          match read_build_info d with
          | ReadRes.ok d' => GetRes.ok (mergeInfo info0 d')
          | ReadRes.keyErr k => GetRes.keyErr k
          | ReadRes.typeErr => GetRes.typeErr
      | none => GetRes.err GErr.noInfoFile
    | none => GetRes.err GErr.noInfoFile

/-- One line of output from the reconciler, with the parameters the
format strings carry. -/
inductive Msg
  /-- "ERROR: Can't sync with bom info: no Bom.txt found ..." -/
  | errNoBom
  /-- "WARNING: build-info ownership: ... might require using sudo ..." -/
  | warnOwnership (ownership : PyVal)
  /-- "WARNING: file %s contains extended attributes or a resource fork
  for %s. ..." -/
  | warnSidecar (path otherfile : String)
  /-- "Changing mode of %s to %s" -/
  | chmodMsg (payloadPath : String) (mode : Nat)
  /-- "Creating %s with mode %s" -/
  | mkdirMsg (payloadPath : String) (mode : Nat)
  /-- "ERROR: File %s is missing in payload" -/
  | errMissingFile (payloadPath : String)
  /-- "Changing user/group of %s to %s/%s" -/
  | chownMsg (payloadPath : String) (uid gid : Int)
  /-- "ERROR: %s" for a caught ValueError/OSError -/
  | errValue
  /-- "Sync successful." -/
  | syncSuccessful
  /-- "Sync successful: no changes needed." -/
  | syncNoChanges
deriving DecidableEq

/-- Mutable state of one reconciliation pass: the payload tree, the
`changes_made` counter, and the output emitted so far. -/
structure SyncState where
  fs : List (String × FMeta)
  changes : Nat
  msgs : List Msg
deriving DecidableEq

/-- The per-pass constants: the payload directory and the process
identity and quiet flag. -/
structure SyncCfg where
  payloadDir : String
  euid : Int
  egid : Int
  quiet : Bool
deriving DecidableEq

/-- `os.path.lexists` / `os.lstat` on the modelled payload tree. -/
def lookupFS : List (String × FMeta) → String → Option FMeta
  | [], _ => none
  | (k, m) :: r, q => if k = q then some m else lookupFS r q

/-- `os.lchmod`: set the permission bits of a path, leaving owner and
group alone. -/
def chmodFS : List (String × FMeta) → String → Nat → List (String × FMeta)
  | [], _, _ => []
  | (k, m) :: r, p, x =>
    (if k = p then (k, { m with perm := x }) else (k, m)) :: chmodFS r p x

/-- `os.lchown`: set owner and group of a path, leaving the permission
bits alone. -/
def chownFS : List (String × FMeta) → String → Int → Int → List (String × FMeta)
  | [], _, _, _ => []
  | (k, m) :: r, p, u, g =>
    (if k = p then (k, { m with uid := u, gid := g }) else (k, m)) :: chownFS r p u g

/-- How one loop iteration of `sync_from_bom_info` ends. -/
inductive StepRes
  /-- Fall through (or `continue`) to the next line. -/
  | next (st : SyncState)
  /-- Missing regular file: print the diagnostic, set `returncode = -1`,
  `break`. -/
  | abort (st : SyncState)
  /-- A `ValueError` caught by the surrounding handler: print
  "ERROR: ..." and return -1. -/
  | fatal (st : SyncState)
  /-- An uncaught `IndexError` from a line with fewer than three
  fields. -/
  | crash
deriving DecidableEq

/-- The body of the reconciliation loop after a line has been parsed:
the sidecar warning, the exists/chmod branch, the mkdir branch (which
`continue`s past the ownership sync), the missing-file abort, and the
privileged owner/group sync. -/
def processEntry (cfg : SyncCfg) (st : SyncState) (e : BomEntry) : StepRes :=
  let payloadPath := pjoin cfg.payloadDir e.path
  if (['.', '_']).isPrefixOf (basenameL e.path.data) then
    StepRes.next { st with msgs := st.msgs ++
      [Msg.warnSidecar e.path (pjoin ⟨dirnameL e.path.data⟩ ⟨(basenameL e.path.data).drop 2⟩)] }
  else
    match lookupFS st.fs payloadPath with
    | some m =>
      let st1 :=
        if m.perm ≠ e.perm then
          { st with fs := chmodFS st.fs payloadPath e.perm,
                    changes := st.changes + 1,
                    msgs := st.msgs ++ (if cfg.quiet then [] else [Msg.chmodMsg payloadPath e.perm]) }
        else st
      if cfg.euid = 0 then
        if m.uid ≠ e.uid ∨ m.gid ≠ e.gid then
          StepRes.next { st1 with fs := chownFS st1.fs payloadPath e.uid e.gid,
                                  changes := st1.changes + 1,
                                  msgs := st1.msgs ++
                                    (if cfg.quiet then [] else [Msg.chownMsg payloadPath e.uid e.gid]) }
        else StepRes.next st1
      else StepRes.next st1
    | none =>
      if (['4']).isPrefixOf e.fullMode.data then
        StepRes.next { st with fs := (payloadPath, ⟨e.perm, cfg.euid, cfg.egid⟩) :: st.fs,
                               changes := st.changes + 1,
                               msgs := st.msgs ++
                                 (if cfg.quiet then [] else [Msg.mkdirMsg payloadPath e.perm]) }
      else
        StepRes.abort { st with msgs := st.msgs ++ [Msg.errMissingFile payloadPath] }

/-- One non-blank line: parse, then process. -/
def stepLine (cfg : SyncCfg) (st : SyncState) (l : String) : StepRes :=
  match parseBomLine l with
  | ParseRes.indexErr => StepRes.crash
  | ParseRes.valueErr => StepRes.fatal { st with msgs := st.msgs ++ [Msg.errValue] }
  | ParseRes.ok e => processEntry cfg st e

/-- How the reconciliation loop as a whole ends. -/
inductive LoopRes
  /-- The loop ran to completion or `break`, with this `returncode`. -/
  | done (ret : Int) (st : SyncState)
  /-- The surrounding `except` handler fired: return -1 without the
  final status message. -/
  | fatal (st : SyncState)
  /-- An uncaught exception. -/
  | crash (st : SyncState)
deriving DecidableEq

/-- The reconciliation loop: skip lines equal to a bare newline, process
the rest in order. -/
def syncLines (cfg : SyncCfg) : List String → SyncState → LoopRes
  | [], st => LoopRes.done 0 st
  | l :: rest, st =>
    if l = ("\n") then syncLines cfg rest st
    else
      match stepLine cfg st l with
      | StepRes.next st' => syncLines cfg rest st'
      | StepRes.abort st' => LoopRes.done (-1) st'
      | StepRes.fatal st' => LoopRes.fatal st'
      | StepRes.crash => LoopRes.crash st

/-- The per-pass constants of `sync_from_bom_info` for a project. -/
def syncCfg (p : Project) (o : Opts) : SyncCfg :=
  { payloadDir := pjoin p.projectDir ("payload"), euid := p.euid, egid := p.egid,
    quiet := o.quiet }

/-- The output emitted before the loop: the ownership warning, for
non-`recommended` ownership in an unprivileged run. -/
def initMsgs (p : Project) (ov : PyVal) : List Msg :=
  if pyEq ov (PyVal.str ("recommended")) = false ∧ (p.euid == 0) = false then
    [Msg.warnOwnership ov]
  else []

/-- The state the reconciliation loop starts from. -/
def initState (p : Project) (ov : PyVal) : SyncState :=
  { fs := p.payload, changes := 0, msgs := initMsgs p ov }

/-- How `sync_from_bom_info` as a whole ends. -/
inductive SyncOutcome
  /-- A normal return with this code. -/
  | ret (code : Int) (st : SyncState)
  /-- An uncaught exception propagates out. -/
  | exn
deriving DecidableEq

/-- The `try: get_build_info ... except MunkiPkgError: default_build_info`
prologue: resolver errors are swallowed and replaced by the defaults;
uncaught `KeyError`/`TypeError` still propagate. -/
def resolveInfoForSync (p : Project) (o : Opts) : Option PyDict :=
  match get_build_info p o with
  | GetRes.ok i => some i
  | GetRes.err _ => some (default_build_info p.projectDir)
  | GetRes.keyErr _ => none
  | GetRes.typeErr => none

/-- `sync_from_bom_info` after build-info resolution: the Bom.txt
existence check, the ownership warning, the loop, and the final status
message. -/
def syncWithInfo (p : Project) (o : Opts) (bi : PyDict) : SyncOutcome :=
  if p.bomExists = false then
    SyncOutcome.ret (-1) { fs := p.payload, changes := 0, msgs := [Msg.errNoBom] }
  else
    match dictGet bi ("ownership") with
    | none => SyncOutcome.exn
    | some ov =>
      match syncLines (syncCfg p o) p.bomLines (initState p ov) with
      | LoopRes.done r st =>
        if r = 0 ∧ o.quiet = false then
          SyncOutcome.ret 0 { st with msgs := st.msgs ++
            [if st.changes = 0 then Msg.syncNoChanges else Msg.syncSuccessful] }
        else SyncOutcome.ret r st
      | LoopRes.fatal st => SyncOutcome.ret (-1) st
      | LoopRes.crash _ => SyncOutcome.exn

/-- `sync_from_bom_info`: resolve build-info (falling back to the
defaults on any `MunkiPkgError`), then reconcile the payload tree
against Bom.txt. -/
def sync_from_bom_info (p : Project) (o : Opts) : SyncOutcome :=
  match resolveInfoForSync p o with
  | none => SyncOutcome.exn
  | some bi => syncWithInfo p o bi

theorem lookupFS_chmod (fs : List (String × FMeta)) (p : String) (x : Nat) (q : String) :
    lookupFS (chmodFS fs p x) q =
      if q = p then (lookupFS fs q).map (fun m => { m with perm := x })
      else lookupFS fs q := by
  induction fs with
  | nil => by_cases h : q = p <;> simp [chmodFS, lookupFS, h]
  | cons kv r ih =>
    obtain ⟨k, m⟩ := kv
    by_cases hkp : k = p
    · subst hkp
      rw [chmodFS, if_pos rfl]
      by_cases hkq : k = q
      · subst hkq
        simp [lookupFS]
      · have hqk : ¬ q = k := fun h => hkq h.symm
        rw [lookupFS, if_neg hkq, ih, if_neg hqk, lookupFS, if_neg hkq, if_neg hqk]
    · rw [chmodFS, if_neg hkp]
      by_cases hkq : k = q
      · subst hkq
        rw [lookupFS, if_pos rfl, lookupFS, if_pos rfl, if_neg hkp]
      · rw [lookupFS, if_neg hkq, ih, lookupFS, if_neg hkq]

theorem lookupFS_chown (fs : List (String × FMeta)) (p : String) (u g : Int) (q : String) :
    lookupFS (chownFS fs p u g) q =
      if q = p then (lookupFS fs q).map (fun m => { m with uid := u, gid := g })
      else lookupFS fs q := by
  induction fs with
  | nil => by_cases h : q = p <;> simp [chownFS, lookupFS, h]
  | cons kv r ih =>
    obtain ⟨k, m⟩ := kv
    by_cases hkp : k = p
    · subst hkp
      rw [chownFS, if_pos rfl]
      by_cases hkq : k = q
      · subst hkq
        simp [lookupFS]
      · have hqk : ¬ q = k := fun h => hkq h.symm
        rw [lookupFS, if_neg hkq, ih, if_neg hqk, lookupFS, if_neg hkq, if_neg hqk]
    · rw [chownFS, if_neg hkp]
      by_cases hkq : k = q
      · subst hkq
        rw [lookupFS, if_pos rfl, lookupFS, if_pos rfl, if_neg hkp]
      · rw [lookupFS, if_neg hkq, ih, lookupFS, if_neg hkq]

/-- Prefix execution of the reconciliation loop: `some` when every line
of the prefix is either blank or steps normally to the next line. -/
def runPrefix (cfg : SyncCfg) : List String → SyncState → Option SyncState
  | [], st => some st
  | l :: rest, st =>
    if l = ("\n") then runPrefix cfg rest st
    else
      match stepLine cfg st l with
      | StepRes.next st' => runPrefix cfg rest st'
      | _ => none

theorem syncLines_append_of_runPrefix (cfg : SyncCfg) (pre rest : List String)
    (st st' : SyncState) (h : runPrefix cfg pre st = some st') :
    syncLines cfg (pre ++ rest) st = syncLines cfg rest st' := by
  induction pre generalizing st with
  | nil =>
    simp only [runPrefix, Option.some.injEq] at h
    subst h; rfl
  | cons l pre ih =>
    by_cases hb : l = ("\n")
    · simp only [runPrefix, hb, if_pos] at h
      simpa [syncLines, hb] using ih st h
    · rw [runPrefix, if_neg hb] at h
      rw [List.cons_append, syncLines, if_neg hb]
      cases hs : stepLine cfg st l <;> rw [hs] at h
      · exact ih _ h
      · exact absurd h (by simp)
      · exact absurd h (by simp)
      · exact absurd h (by simp)

theorem syncLines_ret_zero_or_neg (cfg : SyncCfg) (lines : List String) (st : SyncState)
    (r : Int) (st' : SyncState) (h : syncLines cfg lines st = LoopRes.done r st') :
    r = 0 ∨ r = -1 := by
  induction lines generalizing st with
  | nil =>
    simp only [syncLines, LoopRes.done.injEq] at h
    exact Or.inl h.1.symm
  | cons l rest ih =>
    by_cases hb : l = ("\n")
    · rw [syncLines, if_pos hb] at h; exact ih st h
    · rw [syncLines, if_neg hb] at h
      cases hs : stepLine cfg st l <;> rw [hs] at h
      · exact ih _ h
      · simp only [LoopRes.done.injEq] at h
        exact Or.inr h.1.symm
      · exact absurd h (by simp)
      · exact absurd h (by simp)

theorem syncLines_all_parse (cfg : SyncCfg) (lines : List String) (st : SyncState)
    (stL : SyncState) (h : syncLines cfg lines st = LoopRes.done 0 stL) :
    ∀ l ∈ lines, l = ("\n") ∨ ∃ e, parseBomLine l = ParseRes.ok e := by
  induction lines generalizing st with
  | nil => intro l hl; exact absurd hl (List.not_mem_nil l)
  | cons l0 rest ih =>
    intro l hl
    by_cases hb : l0 = ("\n")
    · rw [syncLines, if_pos hb] at h
      rcases List.mem_cons.mp hl with heq | hmem
      · exact Or.inl (heq ▸ hb)
      · exact ih st h l hmem
    · rw [syncLines, if_neg hb] at h
      cases hs : stepLine cfg st l0 <;> rw [hs] at h
      · rcases List.mem_cons.mp hl with heq | hmem
        · subst heq
          unfold stepLine at hs
          cases hp : parseBomLine l <;> rw [hp] at hs
          · exact Or.inr ⟨_, rfl⟩
          · exact absurd hs (by simp)
          · exact absurd hs (by simp)
        · exact ih _ h l hmem
      · simp only [LoopRes.done.injEq] at h
        exact absurd h.1 (by decide)
      · exact absurd h (by simp)
      · exact absurd h (by simp)

/-- The payload path a line can mutate: `none` for blank, unparseable
and sidecar lines, which never touch the tree. -/
def linePath (cfg : SyncCfg) (l : String) : Option String :=
  if l = ("\n") then none
  else
    match parseBomLine l with
    | ParseRes.ok e =>
      if (['.', '_']).isPrefixOf (basenameL e.path.data) then none
      else some (pjoin cfg.payloadDir e.path)
    | _ => none

/-- The payload paths a list of lines can mutate, in order. -/
def parsedPaths (cfg : SyncCfg) (lines : List String) : List String :=
  lines.filterMap (linePath cfg)

theorem processEntry_sidecar (cfg : SyncCfg) (st : SyncState) (e : BomEntry)
    (hsc : (['.', '_']).isPrefixOf (basenameL e.path.data) = true) :
    processEntry cfg st e = StepRes.next { st with msgs := st.msgs ++
      [Msg.warnSidecar e.path (pjoin ⟨dirnameL e.path.data⟩ ⟨(basenameL e.path.data).drop 2⟩)] } := by
  simp [processEntry, hsc]

theorem processEntry_mkdir (cfg : SyncCfg) (st : SyncState) (e : BomEntry)
    (hsc : (['.', '_']).isPrefixOf (basenameL e.path.data) = false)
    (hnone : lookupFS st.fs (pjoin cfg.payloadDir e.path) = none)
    (hdir : (['4']).isPrefixOf e.fullMode.data = true) :
    processEntry cfg st e = StepRes.next
      { st with fs := (pjoin cfg.payloadDir e.path, ⟨e.perm, cfg.euid, cfg.egid⟩) :: st.fs,
                changes := st.changes + 1,
                msgs := st.msgs ++
                  (if cfg.quiet then [] else [Msg.mkdirMsg (pjoin cfg.payloadDir e.path) e.perm]) } := by
  simp [processEntry, hsc, hnone, hdir]

theorem processEntry_missing (cfg : SyncCfg) (st : SyncState) (e : BomEntry)
    (hsc : (['.', '_']).isPrefixOf (basenameL e.path.data) = false)
    (hnone : lookupFS st.fs (pjoin cfg.payloadDir e.path) = none)
    (hdir : (['4']).isPrefixOf e.fullMode.data = false) :
    processEntry cfg st e = StepRes.abort
      { st with msgs := st.msgs ++ [Msg.errMissingFile (pjoin cfg.payloadDir e.path)] } := by
  simp [processEntry, hsc, hnone, hdir]

theorem processEntry_noop (cfg : SyncCfg) (st : SyncState) (e : BomEntry) (m : FMeta)
    (hsc : (['.', '_']).isPrefixOf (basenameL e.path.data) = false)
    (hm : lookupFS st.fs (pjoin cfg.payloadDir e.path) = some m)
    (hperm : m.perm = e.perm)
    (hog : cfg.euid = 0 → m.uid = e.uid ∧ m.gid = e.gid) :
    processEntry cfg st e = StepRes.next st := by
  by_cases hr : cfg.euid = 0
  · simp [processEntry, hsc, hm, hperm, hr, (hog hr).1, (hog hr).2]
  · simp [processEntry, hsc, hm, hperm, hr]

theorem processEntry_exists (cfg : SyncCfg) (st : SyncState) (e : BomEntry) (m : FMeta)
    (hsc : (['.', '_']).isPrefixOf (basenameL e.path.data) = false)
    (hm : lookupFS st.fs (pjoin cfg.payloadDir e.path) = some m) :
    ∃ st', processEntry cfg st e = StepRes.next st' ∧
      lookupFS st'.fs (pjoin cfg.payloadDir e.path) =
        some { perm := e.perm,
               uid := if cfg.euid = 0 then e.uid else m.uid,
               gid := if cfg.euid = 0 then e.gid else m.gid } ∧
      (∀ q, q ≠ pjoin cfg.payloadDir e.path → lookupFS st'.fs q = lookupFS st.fs q) ∧
      st'.changes = st.changes + (if m.perm = e.perm then 0 else 1) +
        (if cfg.euid = 0 ∧ (m.uid ≠ e.uid ∨ m.gid ≠ e.gid) then 1 else 0) ∧
      (∃ ms, st'.msgs = st.msgs ++ ms ∧ ∀ ov, Msg.warnOwnership ov ∉ ms) := by
  classical
  obtain ⟨mp, mu, mg⟩ := m
  set pp := pjoin cfg.payloadDir e.path with hpp
  have hstep : processEntry cfg st e =
      (let st1 :=
        if mp ≠ e.perm then
          { st with fs := chmodFS st.fs pp e.perm,
                    changes := st.changes + 1,
                    msgs := st.msgs ++ (if cfg.quiet then [] else [Msg.chmodMsg pp e.perm]) }
        else st
      if cfg.euid = 0 then
        if mu ≠ e.uid ∨ mg ≠ e.gid then
          StepRes.next { st1 with fs := chownFS st1.fs pp e.uid e.gid,
                                  changes := st1.changes + 1,
                                  msgs := st1.msgs ++
                                    (if cfg.quiet then [] else [Msg.chownMsg pp e.uid e.gid]) }
        else StepRes.next st1
      else StepRes.next st1) := by
    simp only [processEntry, ← hpp, hsc, Bool.false_eq_true, if_false, hm]
  by_cases hperm : mp = e.perm <;> by_cases hr : cfg.euid = 0
  · by_cases how : mu ≠ e.uid ∨ mg ≠ e.gid
    · refine ⟨{ st with fs := chownFS st.fs pp e.uid e.gid,
                        changes := st.changes + 1,
                        msgs := st.msgs ++
                          (if cfg.quiet then [] else [Msg.chownMsg pp e.uid e.gid]) },
        ?_, ?_, ?_, ?_, ⟨_, rfl, fun ov => by by_cases hq : cfg.quiet <;> simp [hq]⟩⟩
      · rw [hstep]
        simp [hperm, hr, how]
      · simp [lookupFS_chown, hm, hperm, hr]
      · intro q hq
        simp only [lookupFS_chown, if_neg hq]
      · simp [hperm, hr, how]
    · push_neg at how
      refine ⟨st, processEntry_noop cfg st e ⟨mp, mu, mg⟩ hsc hm hperm (fun _ => ⟨how.1, how.2⟩),
        ?_, fun q hq => rfl, ?_, ⟨[], by simp, fun ov => by simp⟩⟩
      · rw [hm, hperm]
        simp [hr, how.1, how.2]
      · simp [hperm, hr, how.1, how.2]
  · refine ⟨st, processEntry_noop cfg st e ⟨mp, mu, mg⟩ hsc hm hperm (fun h => absurd h hr),
      ?_, fun q hq => rfl, ?_, ⟨[], by simp, fun ov => by simp⟩⟩
    · rw [hm, hperm]
      simp [hr]
    · simp [hperm, hr]
  · by_cases how : mu ≠ e.uid ∨ mg ≠ e.gid
    · refine ⟨{ st with
          fs := chownFS (chmodFS st.fs pp e.perm) pp e.uid e.gid,
          changes := st.changes + 1 + 1,
          msgs := (st.msgs ++ (if cfg.quiet then [] else [Msg.chmodMsg pp e.perm])) ++
            (if cfg.quiet then [] else [Msg.chownMsg pp e.uid e.gid]) },
        ?_, ?_, ?_, ?_, ⟨_, by rw [List.append_assoc],
          fun ov => by by_cases hq : cfg.quiet <;> simp [hq]⟩⟩
      · rw [hstep]
        simp [hperm, hr, how]
      · simp [lookupFS_chown, lookupFS_chmod, hm, hr]
      · intro q hq
        simp only [lookupFS_chown, lookupFS_chmod, if_neg hq]
      · simp [hperm, hr, how]
    · push_neg at how
      refine ⟨{ st with fs := chmodFS st.fs pp e.perm,
                        changes := st.changes + 1,
                        msgs := st.msgs ++ (if cfg.quiet then [] else [Msg.chmodMsg pp e.perm]) },
        ?_, ?_, ?_, ?_, ⟨_, rfl, fun ov => by by_cases hq : cfg.quiet <;> simp [hq]⟩⟩
      · rw [hstep]
        simp only [ne_eq, hperm, not_false_iff, if_pos, hr, if_pos rfl]
        simp [how.1, how.2]
      · simp [lookupFS_chmod, hm, hr, how.1, how.2]
      · intro q hq
        simp only [lookupFS_chmod, if_neg hq]
      · simp [hperm, hr, how.1, how.2]
  · refine ⟨{ st with fs := chmodFS st.fs pp e.perm,
                      changes := st.changes + 1,
                      msgs := st.msgs ++ (if cfg.quiet then [] else [Msg.chmodMsg pp e.perm]) },
      ?_, ?_, ?_, ?_, ⟨_, rfl, fun ov => by by_cases hq : cfg.quiet <;> simp [hq]⟩⟩
    · rw [hstep]
      simp [hperm, hr]
    · simp [lookupFS_chmod, hm, hr]
    · intro q hq
      simp only [lookupFS_chmod, if_neg hq]
    · simp [hperm, hr]

theorem parseBomLine_blank : parseBomLine ("\n") = ParseRes.indexErr := by decide

theorem stepLine_parse_ok (cfg : SyncCfg) (st : SyncState) (l : String) (st' : SyncState)
    (h : stepLine cfg st l = StepRes.next st') :
    ∃ e, parseBomLine l = ParseRes.ok e ∧ processEntry cfg st e = StepRes.next st' := by
  unfold stepLine at h
  cases hp : parseBomLine l <;> rw [hp] at h
  · exact ⟨_, rfl, h⟩
  · exact absurd h (by simp)
  · exact absurd h (by simp)

theorem bool_false_of_not_true {b : Bool} (h : ¬ b = true) : b = false := by
  cases b
  · rfl
  · exact absurd rfl h

theorem stepLine_abort_state (cfg : SyncCfg) (st : SyncState) (l : String) (st' : SyncState)
    (h : stepLine cfg st l = StepRes.abort st') :
    st'.fs = st.fs ∧ st'.changes = st.changes ∧ ∃ ms, st'.msgs = st.msgs ++ ms := by
  obtain ⟨e, hp, hpe⟩ : ∃ e, parseBomLine l = ParseRes.ok e ∧
      processEntry cfg st e = StepRes.abort st' := by
    unfold stepLine at h
    cases hp : parseBomLine l <;> rw [hp] at h
    · exact ⟨_, rfl, h⟩
    · exact absurd h (by simp)
    · exact absurd h (by simp)
  cases hsc : (['.', '_']).isPrefixOf (basenameL e.path.data)
  · cases hm : lookupFS st.fs (pjoin cfg.payloadDir e.path) with
    | some m =>
      obtain ⟨st2, heq, -, -, -, -⟩ := processEntry_exists cfg st e m hsc hm
      rw [heq] at hpe
      exact absurd hpe (by simp)
    | none =>
      cases hdir : (['4']).isPrefixOf e.fullMode.data
      · rw [processEntry_missing cfg st e hsc hm hdir] at hpe
        have := StepRes.abort.inj hpe
        subst this
        exact ⟨rfl, rfl, ⟨_, rfl⟩⟩
      · rw [processEntry_mkdir cfg st e hsc hm hdir] at hpe
        exact absurd hpe (by simp)
  · rw [processEntry_sidecar cfg st e hsc] at hpe
    exact absurd hpe (by simp)

theorem stepLine_frame (cfg : SyncCfg) (st : SyncState) (l : String) (st' : SyncState)
    (h : stepLine cfg st l = StepRes.next st')
    (q : String) (hq : linePath cfg l ≠ some q) :
    lookupFS st'.fs q = lookupFS st.fs q := by
  obtain ⟨e, hp, hpe⟩ := stepLine_parse_ok cfg st l st' h
  have hnb : l ≠ ("\n") := by
    intro hl
    rw [hl, parseBomLine_blank] at hp
    exact absurd hp (by simp)
  cases hsc : (['.', '_']).isPrefixOf (basenameL e.path.data)
  · have hlp : linePath cfg l = some (pjoin cfg.payloadDir e.path) := by
      rw [linePath, if_neg hnb, hp]
      simp [hsc]
    have hqp : q ≠ pjoin cfg.payloadDir e.path := by
      intro hq2
      exact hq (hq2 ▸ hlp)
    cases hm : lookupFS st.fs (pjoin cfg.payloadDir e.path) with
    | some m =>
      obtain ⟨st2, heq, -, hframe, -, -⟩ := processEntry_exists cfg st e m hsc hm
      rw [heq] at hpe
      have := StepRes.next.inj hpe
      subst this
      exact hframe q hqp
    | none =>
      cases hdir : (['4']).isPrefixOf e.fullMode.data
      · rw [processEntry_missing cfg st e hsc hm hdir] at hpe
        exact absurd hpe (by simp)
      · rw [processEntry_mkdir cfg st e hsc hm hdir] at hpe
        have := StepRes.next.inj hpe
        subst this
        show lookupFS ((pjoin cfg.payloadDir e.path, _) :: st.fs) q = lookupFS st.fs q
        rw [lookupFS, if_neg (fun hh => hqp hh.symm)]
  · rw [processEntry_sidecar cfg st e hsc] at hpe
    have := StepRes.next.inj hpe
    subst this
    rfl

theorem stepLine_mono_absent (cfg : SyncCfg) (st : SyncState) (l : String) (st' : SyncState)
    (h : stepLine cfg st l = StepRes.next st')
    (q : String) (habs : lookupFS st'.fs q = none) : lookupFS st.fs q = none := by
  obtain ⟨e, hp, hpe⟩ := stepLine_parse_ok cfg st l st' h
  cases hsc : (['.', '_']).isPrefixOf (basenameL e.path.data)
  · cases hm : lookupFS st.fs (pjoin cfg.payloadDir e.path) with
    | some m =>
      obtain ⟨st2, heq, hlook, hframe, -, -⟩ := processEntry_exists cfg st e m hsc hm
      rw [heq] at hpe
      have := StepRes.next.inj hpe
      subst this
      by_cases hqp : q = pjoin cfg.payloadDir e.path
      · rw [hqp, hlook] at habs
        exact absurd habs (by simp)
      · rw [← hframe q hqp]
        exact habs
    | none =>
      by_cases hqp : q = pjoin cfg.payloadDir e.path
      · rw [hqp]
        exact hm
      · cases hdir : (['4']).isPrefixOf e.fullMode.data
        · rw [processEntry_missing cfg st e hsc hm hdir] at hpe
          exact absurd hpe (by simp)
        · rw [processEntry_mkdir cfg st e hsc hm hdir] at hpe
          have := StepRes.next.inj hpe
          subst this
          rw [lookupFS, if_neg (fun hh => hqp hh.symm)] at habs
          exact habs
  · rw [processEntry_sidecar cfg st e hsc] at hpe
    have := StepRes.next.inj hpe
    subst this
    exact habs

/-- A line is stable in a given tree: whatever entry it decodes to (a
non-sidecar one) is already present with the declared permission bits,
and with the declared owner and group when running privileged. -/
def stableEntry (cfg : SyncCfg) (fs : List (String × FMeta)) (l : String) : Prop :=
  ∀ e, parseBomLine l = ParseRes.ok e →
    (['.', '_']).isPrefixOf (basenameL e.path.data) = false →
    ∃ m, lookupFS fs (pjoin cfg.payloadDir e.path) = some m ∧ m.perm = e.perm ∧
      (cfg.euid = 0 → m.uid = e.uid ∧ m.gid = e.gid)

theorem stepLine_of_stable (cfg : SyncCfg) (st : SyncState) (l : String) (e : BomEntry)
    (hp : parseBomLine l = ParseRes.ok e)
    (hst : stableEntry cfg st.fs l) :
    ∃ ms, stepLine cfg st l = StepRes.next { st with msgs := st.msgs ++ ms } := by
  have hstep : stepLine cfg st l = processEntry cfg st e := by
    unfold stepLine
    rw [hp]
  cases hsc : (['.', '_']).isPrefixOf (basenameL e.path.data)
  · obtain ⟨m, hm, hperm, hog⟩ := hst e hp hsc
    refine ⟨[], ?_⟩
    rw [hstep, processEntry_noop cfg st e m hsc hm hperm hog]
    congr
    simp
  · exact ⟨[Msg.warnSidecar e.path (pjoin ⟨dirnameL e.path.data⟩ ⟨(basenameL e.path.data).drop 2⟩)],
      by rw [hstep, processEntry_sidecar cfg st e hsc]⟩

theorem syncLines_of_all_stable (cfg : SyncCfg) (lines : List String) (st : SyncState)
    (hok : ∀ l ∈ lines, l = ("\n") ∨ ∃ e, parseBomLine l = ParseRes.ok e)
    (hst : ∀ l ∈ lines, stableEntry cfg st.fs l) :
    ∃ ms, syncLines cfg lines st = LoopRes.done 0 { st with msgs := st.msgs ++ ms } := by
  induction lines generalizing st with
  | nil =>
    refine ⟨[], ?_⟩
    rw [syncLines]
    congr
    simp
  | cons l rest ih =>
    by_cases hb : l = ("\n")
    · rw [syncLines, if_pos hb]
      exact ih st (fun x hx => hok x (List.mem_cons_of_mem l hx))
        (fun x hx => hst x (List.mem_cons_of_mem l hx))
    · obtain ⟨e, hp⟩ := (hok l (List.mem_cons_self l rest)).resolve_left hb
      obtain ⟨ms1, hstep⟩ := stepLine_of_stable cfg st l e hp (hst l (List.mem_cons_self l rest))
      rw [syncLines, if_neg hb, hstep]
      obtain ⟨ms2, h2⟩ := ih { st with msgs := st.msgs ++ ms1 }
        (fun x hx => hok x (List.mem_cons_of_mem l hx))
        (fun x hx => hst x (List.mem_cons_of_mem l hx))
      refine ⟨ms1 ++ ms2, ?_⟩
      show syncLines cfg rest { st with msgs := st.msgs ++ ms1 } = _
      rw [h2]
      simp [List.append_assoc]

theorem syncLines_fs_frame (cfg : SyncCfg) (lines : List String) (st : SyncState)
    (r : Int) (stL : SyncState) (h : syncLines cfg lines st = LoopRes.done r stL)
    (q : String) (hq : q ∉ parsedPaths cfg lines) :
    lookupFS stL.fs q = lookupFS st.fs q := by
  induction lines generalizing st with
  | nil =>
    simp only [syncLines, LoopRes.done.injEq] at h
    rw [← h.2]
  | cons l rest ih =>
    have hq_rest : q ∉ parsedPaths cfg rest := by
      intro hmem
      exact hq (by
        unfold parsedPaths at hmem ⊢
        rw [List.filterMap_cons]
        cases linePath cfg l
        · exact hmem
        · exact List.mem_cons_of_mem _ hmem)
    by_cases hb : l = ("\n")
    · rw [syncLines, if_pos hb] at h
      exact ih st h hq_rest
    · rw [syncLines, if_neg hb] at h
      have hql : linePath cfg l ≠ some q := by
        intro hl
        exact hq (by
          unfold parsedPaths
          rw [List.filterMap_cons, hl]
          exact List.mem_cons_self q _)
      cases hs : stepLine cfg st l <;> rw [hs] at h
      · rw [ih _ h hq_rest, stepLine_frame cfg st l _ hs q hql]
      · simp only [LoopRes.done.injEq] at h
        obtain ⟨hfs, -, -⟩ := stepLine_abort_state cfg st l _ hs
        rw [← h.2, hfs]
      · exact absurd h (by simp)
      · exact absurd h (by simp)

theorem syncLines_stable_final (cfg : SyncCfg) (lines : List String) (st : SyncState)
    (stL : SyncState) (h : syncLines cfg lines st = LoopRes.done 0 stL)
    (hnd : (parsedPaths cfg lines).Nodup)
    (hown : ∀ l ∈ lines, ∀ e, parseBomLine l = ParseRes.ok e →
        (['.', '_']).isPrefixOf (basenameL e.path.data) = false →
        (['4']).isPrefixOf e.fullMode.data = true →
        lookupFS st.fs (pjoin cfg.payloadDir e.path) = none →
        cfg.euid = 0 → e.uid = cfg.euid ∧ e.gid = cfg.egid) :
    ∀ l ∈ lines, stableEntry cfg stL.fs l := by
  induction lines generalizing st with
  | nil => intro l hl; exact absurd hl (List.not_mem_nil l)
  | cons l0 rest ih =>
    by_cases hb : l0 = ("\n")
    · rw [syncLines, if_pos hb] at h
      have hnd' : (parsedPaths cfg rest).Nodup := by
        have : parsedPaths cfg (l0 :: rest) = parsedPaths cfg rest := by
          unfold parsedPaths
          rw [List.filterMap_cons, show linePath cfg l0 = none from by rw [linePath, if_pos hb]]
        rw [this] at hnd
        exact hnd
      have hstable := ih st h hnd' (fun x hx => hown x (List.mem_cons_of_mem l0 hx))
      intro l hl
      rcases List.mem_cons.mp hl with heq | hmem
      · subst heq
        intro e hp
        rw [hb, parseBomLine_blank] at hp
        exact absurd hp (by simp)
      · exact hstable l hmem
    · rw [syncLines, if_neg hb] at h
      cases hs : stepLine cfg st l0 <;> rw [hs] at h
      · rename_i st2
        obtain ⟨e, hp, hpe⟩ := stepLine_parse_ok cfg st l0 st2 hs
        have hown2 : ∀ l ∈ rest, ∀ e2, parseBomLine l = ParseRes.ok e2 →
            (['.', '_']).isPrefixOf (basenameL e2.path.data) = false →
            (['4']).isPrefixOf e2.fullMode.data = true →
            lookupFS st2.fs (pjoin cfg.payloadDir e2.path) = none →
            cfg.euid = 0 → e2.uid = cfg.euid ∧ e2.gid = cfg.egid := by
          intro l hl e2 hp2 hsc2 hdir2 habs2 hr
          exact hown l (List.mem_cons_of_mem l0 hl) e2 hp2 hsc2 hdir2
            (stepLine_mono_absent cfg st l0 st2 hs _ habs2) hr
        cases hsc : (['.', '_']).isPrefixOf (basenameL e.path.data)
        · -- a tree-touching line: its path survives to the end untouched
          have hlp : linePath cfg l0 = some (pjoin cfg.payloadDir e.path) := by
            rw [linePath, if_neg hb, hp]
            simp [hsc]
          have hnd_cons : parsedPaths cfg (l0 :: rest) =
              pjoin cfg.payloadDir e.path :: parsedPaths cfg rest := by
            unfold parsedPaths
            rw [List.filterMap_cons, hlp]
          rw [hnd_cons] at hnd
          have hnotin : pjoin cfg.payloadDir e.path ∉ parsedPaths cfg rest :=
            (List.nodup_cons.mp hnd).1
          have hnd' : (parsedPaths cfg rest).Nodup := (List.nodup_cons.mp hnd).2
          have hstable := ih st2 h hnd' hown2
          have hframe := syncLines_fs_frame cfg rest st2 0 stL h _ hnotin
          intro l hl
          rcases List.mem_cons.mp hl with heq | hmem
          · subst heq
            intro e2 hp2 hsc2
            rw [hp] at hp2
            have he2 : e = e2 := (ParseRes.ok.inj hp2)
            subst he2
            cases hm : lookupFS st.fs (pjoin cfg.payloadDir e.path) with
            | some m =>
              obtain ⟨st3, heq3, hlook, -, -, -⟩ := processEntry_exists cfg st e m hsc hm
              rw [heq3] at hpe
              have := StepRes.next.inj hpe
              subst this
              refine ⟨_, by rw [hframe]; exact hlook, rfl, fun hr => ?_⟩
              simp [hr]
            | none =>
              cases hdir : (['4']).isPrefixOf e.fullMode.data
              · rw [processEntry_missing cfg st e hsc hm hdir] at hpe
                exact absurd hpe (by simp)
              · rw [processEntry_mkdir cfg st e hsc hm hdir] at hpe
                have hst2 := StepRes.next.inj hpe
                have hmeta : lookupFS st2.fs (pjoin cfg.payloadDir e.path) =
                    some ⟨e.perm, cfg.euid, cfg.egid⟩ := by
                  rw [← hst2]
                  show lookupFS
                      ((pjoin cfg.payloadDir e.path, ⟨e.perm, cfg.euid, cfg.egid⟩) :: st.fs)
                      (pjoin cfg.payloadDir e.path) = some ⟨e.perm, cfg.euid, cfg.egid⟩
                  rw [lookupFS, if_pos rfl]
                refine ⟨⟨e.perm, cfg.euid, cfg.egid⟩, by rw [hframe]; exact hmeta, rfl, fun hr => ?_⟩
                obtain ⟨hu, hg⟩ := hown l (List.mem_cons_self l rest) e hp hsc hdir hm hr
                exact ⟨hu.symm, hg.symm⟩
          · exact hstable l hmem
        · -- a sidecar line: stability is trivial for it
          have hlp : linePath cfg l0 = none := by
            rw [linePath, if_neg hb, hp]
            simp [hsc]
          have hnd' : (parsedPaths cfg rest).Nodup := by
            have : parsedPaths cfg (l0 :: rest) = parsedPaths cfg rest := by
              unfold parsedPaths
              rw [List.filterMap_cons, hlp]
            rw [this] at hnd
            exact hnd
          have hstable := ih st2 h hnd' hown2
          intro l hl
          rcases List.mem_cons.mp hl with heq | hmem
          · subst heq
            intro e2 hp2 hsc2
            rw [hp] at hp2
            have he2 : e = e2 := (ParseRes.ok.inj hp2)
            subst he2
            rw [hsc] at hsc2
            exact absurd hsc2 (by simp)
          · exact hstable l hmem
      · simp only [LoopRes.done.injEq] at h
        exact absurd h.1 (by decide)
      · exact absurd h (by simp)
      · exact absurd h (by simp)

theorem processEntry_not_fatal (cfg : SyncCfg) (st : SyncState) (e : BomEntry)
    (st' : SyncState) : processEntry cfg st e ≠ StepRes.fatal st' := by
  intro h
  cases hsc : (['.', '_']).isPrefixOf (basenameL e.path.data)
  · cases hm : lookupFS st.fs (pjoin cfg.payloadDir e.path) with
    | some m =>
      obtain ⟨st2, heq, -, -, -, -⟩ := processEntry_exists cfg st e m hsc hm
      rw [heq] at h
      exact absurd h (by simp)
    | none =>
      cases hdir : (['4']).isPrefixOf e.fullMode.data
      · rw [processEntry_missing cfg st e hsc hm hdir] at h
        exact absurd h (by simp)
      · rw [processEntry_mkdir cfg st e hsc hm hdir] at h
        exact absurd h (by simp)
  · rw [processEntry_sidecar cfg st e hsc] at h
    exact absurd h (by simp)

theorem stepLine_fatal_msgs (cfg : SyncCfg) (st : SyncState) (l : String) (st' : SyncState)
    (h : stepLine cfg st l = StepRes.fatal st') :
    st'.msgs = st.msgs ++ [Msg.errValue] := by
  unfold stepLine at h
  cases hp : parseBomLine l <;> rw [hp] at h
  · exact absurd h (processEntry_not_fatal cfg st _ st')
  · have := StepRes.fatal.inj h
    rw [← this]
  · exact absurd h (by simp)

theorem stepLine_next_msgs (cfg : SyncCfg) (st : SyncState) (l : String) (st' : SyncState)
    (h : stepLine cfg st l = StepRes.next st') :
    ∃ ms, st'.msgs = st.msgs ++ ms ∧ ∀ ov, Msg.warnOwnership ov ∉ ms := by
  obtain ⟨e, hp, hpe⟩ := stepLine_parse_ok cfg st l st' h
  cases hsc : (['.', '_']).isPrefixOf (basenameL e.path.data)
  · cases hm : lookupFS st.fs (pjoin cfg.payloadDir e.path) with
    | some m =>
      obtain ⟨st2, heq, -, -, -, hmsgs⟩ := processEntry_exists cfg st e m hsc hm
      rw [heq] at hpe
      have := StepRes.next.inj hpe
      subst this
      exact hmsgs
    | none =>
      cases hdir : (['4']).isPrefixOf e.fullMode.data
      · rw [processEntry_missing cfg st e hsc hm hdir] at hpe
        exact absurd hpe (by simp)
      · rw [processEntry_mkdir cfg st e hsc hm hdir] at hpe
        have := StepRes.next.inj hpe
        subst this
        refine ⟨_, rfl, fun ov => ?_⟩
        by_cases hq : cfg.quiet <;> simp [hq]
  · rw [processEntry_sidecar cfg st e hsc] at hpe
    have := StepRes.next.inj hpe
    subst this
    exact ⟨_, rfl, fun ov => by simp⟩

theorem stepLine_abort_msgs (cfg : SyncCfg) (st : SyncState) (l : String) (st' : SyncState)
    (h : stepLine cfg st l = StepRes.abort st') :
    ∃ ms, st'.msgs = st.msgs ++ ms ∧ ∀ ov, Msg.warnOwnership ov ∉ ms := by
  obtain ⟨e, hp, hpe⟩ : ∃ e, parseBomLine l = ParseRes.ok e ∧
      processEntry cfg st e = StepRes.abort st' := by
    unfold stepLine at h
    cases hp : parseBomLine l <;> rw [hp] at h
    · exact ⟨_, rfl, h⟩
    · exact absurd h (by simp)
    · exact absurd h (by simp)
  cases hsc : (['.', '_']).isPrefixOf (basenameL e.path.data)
  · cases hm : lookupFS st.fs (pjoin cfg.payloadDir e.path) with
    | some m =>
      obtain ⟨st2, heq, -, -, -, -⟩ := processEntry_exists cfg st e m hsc hm
      rw [heq] at hpe
      exact absurd hpe (by simp)
    | none =>
      cases hdir : (['4']).isPrefixOf e.fullMode.data
      · rw [processEntry_missing cfg st e hsc hm hdir] at hpe
        have := StepRes.abort.inj hpe
        subst this
        exact ⟨_, rfl, fun ov => by simp⟩
      · rw [processEntry_mkdir cfg st e hsc hm hdir] at hpe
        exact absurd hpe (by simp)
  · rw [processEntry_sidecar cfg st e hsc] at hpe
    exact absurd hpe (by simp)

theorem syncLines_msgs_no_ownwarn (cfg : SyncCfg) (lines : List String) (st : SyncState)
    (r : Int) (stL : SyncState)
    (h : syncLines cfg lines st = LoopRes.done r stL ∨
         syncLines cfg lines st = LoopRes.fatal stL) :
    ∃ ms, stL.msgs = st.msgs ++ ms ∧ ∀ ov, Msg.warnOwnership ov ∉ ms := by
  induction lines generalizing st with
  | nil =>
    rcases h with h | h
    · simp only [syncLines, LoopRes.done.injEq] at h
      exact ⟨[], by rw [← h.2]; simp, fun ov => by simp⟩
    · exact absurd h (by simp [syncLines])
  | cons l rest ih =>
    by_cases hb : l = ("\n")
    · rw [syncLines, if_pos hb] at h
      exact ih st h
    · rw [syncLines, if_neg hb] at h
      cases hs : stepLine cfg st l <;> rw [hs] at h
      · rename_i st2
        obtain ⟨ms1, hm1, hw1⟩ := stepLine_next_msgs cfg st l st2 hs
        obtain ⟨ms2, hm2, hw2⟩ := ih st2 h
        refine ⟨ms1 ++ ms2, ?_, fun ov hmem => ?_⟩
        · rw [hm2, hm1, List.append_assoc]
        · rcases List.mem_append.mp hmem with h1 | h2
          · exact hw1 ov h1
          · exact hw2 ov h2
      · rename_i st2
        rcases h with h | h
        · simp only [LoopRes.done.injEq] at h
          obtain ⟨ms1, hm1, hw1⟩ := stepLine_abort_msgs cfg st l st2 hs
          exact ⟨ms1, by rw [← h.2]; exact hm1, hw1⟩
        · exact absurd h (by simp)
      · rename_i st2
        rcases h with h | h
        · exact absurd h (by simp)
        · have := LoopRes.fatal.inj h
          subst this
          exact ⟨[Msg.errValue], stepLine_fatal_msgs cfg st l _ hs, fun ov => by simp⟩
      · rcases h with h | h
        · exact absurd h (by simp)
        · exact absurd h (by simp)

/-- C8: a Bom.txt entry whose basename starts with `._` performs no
filesystem mutation (the state keeps its tree and change count) and
always emits the warning naming the sibling path obtained by stripping
the `._` prefix from the basename. -/
theorem sidecar_entry_skipped (cfg : SyncCfg) (st : SyncState) (l : String) (e : BomEntry)
    (hp : parseBomLine l = ParseRes.ok e)
    (hsc : (['.', '_']).isPrefixOf (basenameL e.path.data) = true) :
    stepLine cfg st l = StepRes.next
      { st with msgs := st.msgs ++
        [Msg.warnSidecar e.path
          (pjoin ⟨dirnameL e.path.data⟩ ⟨(basenameL e.path.data).drop 2⟩)] } := by
  unfold stepLine
  rw [hp]
  exact processEntry_sidecar cfg st e hsc

theorem sidecar_entry_skipped_witness :
    stepLine ⟨("proj/payload"), 0, 0, false⟩ ⟨[], 0, []⟩ ("a/._b\t100644\t0/0\n") =
      StepRes.next ⟨[], 0, [Msg.warnSidecar ("a/._b") ("a/b")]⟩ :=
  sidecar_entry_skipped ⟨("proj/payload"), 0, 0, false⟩ ⟨[], 0, []⟩ ("a/._b\t100644\t0/0\n")
    { path := ("a/._b"), fullMode := ("100644"), uid := 0, gid := 0, perm := 420 }
    (by decide) (by decide)

/-- C1: a text BOM entry for a non-directory path absent from the
payload tree stops the reconciliation at that entry: the outcome is
independent of every later line, carries return code -1, names the
missing payload path in its diagnostic, and keeps the tree and change
count accumulated over the earlier entries. -/
theorem missing_file_aborts (p : Project) (o : Opts) (bi : PyDict) (ov : PyVal)
    (pre post : List String) (bad : String) (st1 : SyncState) (e : BomEntry)
    (hres : resolveInfoForSync p o = some bi)
    (hov : dictGet bi ("ownership") = some ov)
    (hbom : p.bomExists = true)
    (hlines : p.bomLines = pre ++ bad :: post)
    (hpre : runPrefix (syncCfg p o) pre (initState p ov) = some st1)
    (hparse : parseBomLine bad = ParseRes.ok e)
    (hsc : (['.', '_']).isPrefixOf (basenameL e.path.data) = false)
    (hdir : (['4']).isPrefixOf e.fullMode.data = false)
    (hmiss : lookupFS st1.fs (pjoin (syncCfg p o).payloadDir e.path) = none) :
    sync_from_bom_info p o =
      SyncOutcome.ret (-1)
        { fs := st1.fs, changes := st1.changes,
          msgs := st1.msgs ++ [Msg.errMissingFile (pjoin (syncCfg p o).payloadDir e.path)] } := by
  have hnb : bad ≠ ("\n") := by
    intro hbl
    rw [hbl, parseBomLine_blank] at hparse
    exact absurd hparse (by simp)
  have hstep : stepLine (syncCfg p o) st1 bad = StepRes.abort
      { st1 with msgs := st1.msgs ++
        [Msg.errMissingFile (pjoin (syncCfg p o).payloadDir e.path)] } := by
    unfold stepLine
    rw [hparse]
    exact processEntry_missing (syncCfg p o) st1 e hsc hmiss hdir
  have hloop : syncLines (syncCfg p o) p.bomLines (initState p ov) =
      LoopRes.done (-1)
        { st1 with msgs := st1.msgs ++
          [Msg.errMissingFile (pjoin (syncCfg p o).payloadDir e.path)] } := by
    rw [hlines, syncLines_append_of_runPrefix (syncCfg p o) pre (bad :: post) _ st1 hpre,
        syncLines, if_neg hnb, hstep]
  unfold sync_from_bom_info
  rw [hres]
  show syncWithInfo p o bi = _
  unfold syncWithInfo
  simp only [hbom, hov, hloop]
  simp

theorem missing_file_aborts_witness :
    sync_from_bom_info
      { projectDir := ("proj"), plistData := none, jsonData := none, yamlData := none,
        ymlData := none, bomExists := true,
        bomLines := [("d\t40755\t0/0\n"), ("f\t100644\t0/0\n"), ("g\t100644\t0/0\n")],
        payload := [(("proj/payload/d"), ⟨493, 0, 0⟩)], euid := 501, egid := 20 }
      { quiet := false, yaml := false, json := false } =
    SyncOutcome.ret (-1)
      { fs := [(("proj/payload/d"), ⟨493, 0, 0⟩)], changes := 0,
        msgs := [Msg.errMissingFile ("proj/payload/f")] } :=
  missing_file_aborts
    { projectDir := ("proj"), plistData := none, jsonData := none, yamlData := none,
      ymlData := none, bomExists := true,
      bomLines := [("d\t40755\t0/0\n"), ("f\t100644\t0/0\n"), ("g\t100644\t0/0\n")],
      payload := [(("proj/payload/d"), ⟨493, 0, 0⟩)], euid := 501, egid := 20 }
    { quiet := false, yaml := false, json := false }
    (default_build_info ("proj")) (PyVal.str ("recommended"))
    [("d\t40755\t0/0\n")] [("g\t100644\t0/0\n")] ("f\t100644\t0/0\n")
    ⟨[(("proj/payload/d"), ⟨493, 0, 0⟩)], 0, []⟩
    { path := ("f"), fullMode := ("100644"), uid := 0, gid := 0, perm := 420 }
    (by decide) (by decide) (by decide) (by decide) (by decide) (by decide)
    (by decide) (by decide) (by decide)

/-- Number of build-info candidate files present in a project. -/
def candidateCount (p : Project) : Nat :=
  (if p.plistData.isSome then 1 else 0) + (if p.jsonData.isSome then 1 else 0) +
  (if p.yamlData.isSome then 1 else 0) + (if p.ymlData.isSome then 1 else 0)

/-- C6: with no explicit format flag, a project holding two or more
candidate build-info files makes `get_build_info` fail with the
"multiple build-info files" error, producing no build-info. -/
theorem multiple_build_info_rejected (p : Project) (o : Opts)
    (hy : o.yaml = false) (hj : o.json = false)
    (hc : 2 ≤ candidateCount p) :
    get_build_info p o = GetRes.err GErr.multiple := by
  have hp : probeTypes p file_types none = Except.error GErr.multiple := by
    unfold file_types
    cases h1 : p.plistData <;> cases h2 : p.jsonData <;> cases h3 : p.yamlData <;>
      cases h4 : p.ymlData <;>
      simp [probeTypes, fileData, candidateCount, h1, h2, h3, h4] at hc ⊢
  simp [get_build_info, hy, hj, hp]

theorem multiple_build_info_rejected_witness :
    get_build_info
      { projectDir := ("proj"), plistData := some (some []), jsonData := some (some []),
        yamlData := none, ymlData := none, bomExists := false, bomLines := [],
        payload := [], euid := 0, egid := 0 }
      { quiet := false, yaml := false, json := false } = GetRes.err GErr.multiple :=
  multiple_build_info_rejected
    { projectDir := ("proj"), plistData := some (some []), jsonData := some (some []),
      yamlData := none, ymlData := none, bomExists := false, bomLines := [],
      payload := [], euid := 0, egid := 0 }
    { quiet := false, yaml := false, json := false } (by decide) (by decide) (by decide)

/-- C9: a successfully parsed build-info file with no `name` key makes
`read_build_info` end in an uncaught KeyError (not a reported validation
failure); the same happens for a missing `version` key when the name
holds the placeholder; and the error propagates through the public
`get_build_info` / `sync_from_bom_info` interface. -/
theorem read_build_info_keyerror (d1 d2 : PyDict) (n : String) (p : Project) (o : Opts)
    (h1 : dictGet d1 ("name") = none)
    (h2 : dictGet d2 ("name") = some (PyVal.str n))
    (h3 : containsSub verPlaceholder n.data = true)
    (h4 : dictGet d2 ("version") = none)
    (hplist : p.plistData = some (some d1))
    (hjson : p.jsonData = none) (hyaml : p.yamlData = none) (hyml : p.ymlData = none)
    (hy : o.yaml = false) (hj : o.json = false) :
    read_build_info d1 = ReadRes.keyErr ("name") ∧
    read_build_info d2 = ReadRes.keyErr ("version") ∧
    get_build_info p o = GetRes.keyErr ("name") ∧
    sync_from_bom_info p o = SyncOutcome.exn := by
  have hr1 : read_build_info d1 = ReadRes.keyErr ("name") := by
    simp [read_build_info, h1]
  have hg : get_build_info p o = GetRes.keyErr ("name") := by
    have hp : probeTypes p file_types none = Except.ok (some ("plist")) := by
      simp [probeTypes, file_types, fileData, hplist, hjson, hyaml, hyml]
    simp [get_build_info, hy, hj, hp, fileData, hplist, hr1]
  refine ⟨hr1, ?_, hg, ?_⟩
  · simp [read_build_info, h2, h3, h4]
  · simp [sync_from_bom_info, resolveInfoForSync, hg]

theorem read_build_info_keyerror_witness :
    read_build_info [(("version"), PyVal.str ("1.0"))] = ReadRes.keyErr ("name") ∧
    read_build_info [(("name"), PyVal.str ("A-$\x7bversion\x7d.pkg"))] =
      ReadRes.keyErr ("version") ∧
    get_build_info
      { projectDir := ("proj"), plistData := some (some [(("version"), PyVal.str ("1.0"))]),
        jsonData := none, yamlData := none, ymlData := none, bomExists := true,
        bomLines := [], payload := [], euid := 0, egid := 0 }
      { quiet := false, yaml := false, json := false } = GetRes.keyErr ("name") ∧
    sync_from_bom_info
      { projectDir := ("proj"), plistData := some (some [(("version"), PyVal.str ("1.0"))]),
        jsonData := none, yamlData := none, ymlData := none, bomExists := true,
        bomLines := [], payload := [], euid := 0, egid := 0 }
      { quiet := false, yaml := false, json := false } = SyncOutcome.exn :=
  read_build_info_keyerror [(("version"), PyVal.str ("1.0"))]
    [(("name"), PyVal.str ("A-$\x7bversion\x7d.pkg"))] ("A-$\x7bversion\x7d.pkg")
    { projectDir := ("proj"), plistData := some (some [(("version"), PyVal.str ("1.0"))]),
      jsonData := none, yamlData := none, ymlData := none, bomExists := true,
      bomLines := [], payload := [], euid := 0, egid := 0 }
    { quiet := false, yaml := false, json := false }
    (by decide) (by decide) (by decide) (by decide) (by decide) (by decide) (by decide)
    (by decide) (by decide) (by decide)

theorem default_ownership_recommended (dir : String) :
    dictGet (default_build_info dir) ("ownership") = some (PyVal.str ("recommended")) := rfl

theorem initMsgs_recommended (p : Project) :
    initMsgs p (PyVal.str ("recommended")) = [] := by
  simp [initMsgs, pyEq]

/-- C10: when build-info resolution fails with a `MunkiPkgError` (no
file, multiple files, invalid file), `sync_from_bom_info` does not
abort: it substitutes the hard-coded defaults — whose ownership is
`recommended` — and proceeds; in particular no ownership warning is ever
emitted on such a run. -/
theorem resolver_failure_silent_default (p : Project) (o : Opts) (g : GErr)
    (h : get_build_info p o = GetRes.err g) :
    sync_from_bom_info p o = syncWithInfo p o (default_build_info p.projectDir) ∧
    dictGet (default_build_info p.projectDir) ("ownership") =
      some (PyVal.str ("recommended")) ∧
    (∀ r st, sync_from_bom_info p o = SyncOutcome.ret r st →
      ∀ ov, Msg.warnOwnership ov ∉ st.msgs) := by
  have hres : resolveInfoForSync p o = some (default_build_info p.projectDir) := by
    simp [resolveInfoForSync, h]
  have hsync : sync_from_bom_info p o = syncWithInfo p o (default_build_info p.projectDir) := by
    simp [sync_from_bom_info, hres]
  refine ⟨hsync, default_ownership_recommended p.projectDir, ?_⟩
  intro r st hret ov hmem
  rw [hsync] at hret
  by_cases hbe : p.bomExists = false
  · rw [syncWithInfo, if_pos hbe] at hret
    rw [← (SyncOutcome.ret.inj hret).2] at hmem
    simp at hmem
  · have hbt : p.bomExists = true := by
      cases hx : p.bomExists
      · exact absurd hx hbe
      · rfl
    have hinit : (initState p (PyVal.str ("recommended"))).msgs = [] := by
      simp [initState, initMsgs_recommended]
    cases hloop : syncLines (syncCfg p o) p.bomLines (initState p (PyVal.str ("recommended")))
      with
    | done r' st' =>
      have hsw : syncWithInfo p o (default_build_info p.projectDir) =
          (if r' = 0 ∧ o.quiet = false then
            SyncOutcome.ret 0 { st' with msgs := st'.msgs ++
              [if st'.changes = 0 then Msg.syncNoChanges else Msg.syncSuccessful] }
          else SyncOutcome.ret r' st') := by
        unfold syncWithInfo
        simp only [hbt, default_ownership_recommended, hloop]
        simp
      rw [hsw] at hret
      obtain ⟨ms, hms, hw⟩ :=
        syncLines_msgs_no_ownwarn (syncCfg p o) p.bomLines _ r' st' (Or.inl hloop)
      rw [hinit] at hms
      simp only [List.nil_append] at hms
      by_cases hcond : r' = 0 ∧ o.quiet = false
      · rw [if_pos hcond] at hret
        rw [← (SyncOutcome.ret.inj hret).2] at hmem
        simp only [List.mem_append] at hmem
        rcases hmem with hmem | hmem
        · rw [hms] at hmem
          exact hw ov hmem
        · by_cases hch : st'.changes = 0 <;> simp [hch] at hmem
      · rw [if_neg hcond] at hret
        rw [← (SyncOutcome.ret.inj hret).2] at hmem
        rw [hms] at hmem
        exact hw ov hmem
    | fatal st' =>
      have hsw : syncWithInfo p o (default_build_info p.projectDir) =
          SyncOutcome.ret (-1) st' := by
        unfold syncWithInfo
        simp only [hbt, default_ownership_recommended, hloop]
        simp
      rw [hsw] at hret
      obtain ⟨ms, hms, hw⟩ :=
        syncLines_msgs_no_ownwarn (syncCfg p o) p.bomLines _ (-1) st' (Or.inr hloop)
      rw [hinit] at hms
      simp only [List.nil_append] at hms
      rw [← (SyncOutcome.ret.inj hret).2] at hmem
      rw [hms] at hmem
      exact hw ov hmem
    | crash st' =>
      have hsw : syncWithInfo p o (default_build_info p.projectDir) = SyncOutcome.exn := by
        unfold syncWithInfo
        simp only [hbt, default_ownership_recommended, hloop]
        simp
      rw [hsw] at hret
      exact absurd hret (by simp)

theorem resolver_failure_silent_default_witness :
    sync_from_bom_info
      { projectDir := ("proj"), plistData := none, jsonData := none, yamlData := none,
        ymlData := none, bomExists := true, bomLines := [],
        payload := [], euid := 501, egid := 20 }
      { quiet := false, yaml := false, json := false } =
    syncWithInfo
      { projectDir := ("proj"), plistData := none, jsonData := none, yamlData := none,
        ymlData := none, bomExists := true, bomLines := [],
        payload := [], euid := 501, egid := 20 }
      { quiet := false, yaml := false, json := false }
      (default_build_info ("proj")) :=
  (resolver_failure_silent_default
    { projectDir := ("proj"), plistData := none, jsonData := none, yamlData := none,
      ymlData := none, bomExists := true, bomLines := [],
      payload := [], euid := 501, egid := 20 }
    { quiet := false, yaml := false, json := false } GErr.noInfoFile (by decide)).1

/-- C3 counterexample: a successful run that made one change still
returns 0, not the change count 1 — the claim that the reconciler
"returns the total count of changes it made" fails on this input. -/
theorem sync_return_is_not_change_count :
    sync_from_bom_info
      { projectDir := ("proj"), plistData := none, jsonData := none, yamlData := none,
        ymlData := none, bomExists := true, bomLines := [("d\t40755\t0/0\n")],
        payload := [], euid := 501, egid := 20 }
      { quiet := false, yaml := false, json := false } =
      SyncOutcome.ret 0
        { fs := [(("proj/payload/d"), ⟨493, 501, 20⟩)], changes := 1,
          msgs := [Msg.mkdirMsg ("proj/payload/d") 493, Msg.syncSuccessful] } ∧
    (0 : Int) ≠ ((1 : Nat) : Int) := by
  constructor
  · decide
  · decide

/-- C3 amended: on a normal return the reconciler's result is 0 on
success and -1 on failure — never the change count; when it returns 0
un-quieted, the change count decides only which final status message is
reported. -/
theorem sync_returncode_zero_or_fatal (p : Project) (o : Opts) (r : Int) (st : SyncState)
    (h : sync_from_bom_info p o = SyncOutcome.ret r st) :
    (r = 0 ∨ r = -1) ∧
    (r = 0 → o.quiet = false →
      st.msgs.getLast? = some (if st.changes = 0 then Msg.syncNoChanges else Msg.syncSuccessful)) := by
  cases hres : resolveInfoForSync p o with
  | none =>
    simp only [sync_from_bom_info, hres] at h
    exact absurd h (by simp)
  | some bi =>
    simp only [sync_from_bom_info, hres] at h
    by_cases hbe : p.bomExists = false
    · unfold syncWithInfo at h
      rw [if_pos hbe] at h
      obtain ⟨h1, h2⟩ := SyncOutcome.ret.inj h
      refine ⟨Or.inr h1.symm, fun hr0 _ => ?_⟩
      rw [← h1] at hr0
      exact absurd hr0 (by decide)
    · have hbt : p.bomExists = true := by
        cases hx : p.bomExists
        · exact absurd hx hbe
        · rfl
      cases hov : dictGet bi ("ownership") with
      | none =>
        have hsw : syncWithInfo p o bi = SyncOutcome.exn := by
          unfold syncWithInfo
          simp [hbt, hov]
        rw [hsw] at h
        exact absurd h (by simp)
      | some ov =>
        cases hloop : syncLines (syncCfg p o) p.bomLines (initState p ov) with
        | done r' st' =>
          have hsw : syncWithInfo p o bi =
              (if r' = 0 ∧ o.quiet = false then
                SyncOutcome.ret 0 { st' with msgs := st'.msgs ++
                  [if st'.changes = 0 then Msg.syncNoChanges else Msg.syncSuccessful] }
              else SyncOutcome.ret r' st') := by
            unfold syncWithInfo
            simp only [hbt, hov, hloop]
            simp
          rw [hsw] at h
          by_cases hcond : r' = 0 ∧ o.quiet = false
          · rw [if_pos hcond] at h
            obtain ⟨h1, h2⟩ := SyncOutcome.ret.inj h
            refine ⟨Or.inl h1.symm, fun _ _ => ?_⟩
            rw [← h2]
            simp [List.getLast?_concat]
          · rw [if_neg hcond] at h
            obtain ⟨h1, h2⟩ := SyncOutcome.ret.inj h
            constructor
            · rcases syncLines_ret_zero_or_neg (syncCfg p o) p.bomLines _ r' st' hloop
                with h0 | h0
              · exact Or.inl (by rw [← h1, h0])
              · exact Or.inr (by rw [← h1, h0])
            · intro hr0 hq
              exact absurd ⟨h1.trans hr0, hq⟩ hcond
        | fatal st' =>
          have hsw : syncWithInfo p o bi = SyncOutcome.ret (-1) st' := by
            unfold syncWithInfo
            simp only [hbt, hov, hloop]
            simp
          rw [hsw] at h
          obtain ⟨h1, h2⟩ := SyncOutcome.ret.inj h
          refine ⟨Or.inr h1.symm, fun hr0 _ => ?_⟩
          rw [← h1] at hr0
          exact absurd hr0 (by decide)
        | crash st' =>
          have hsw : syncWithInfo p o bi = SyncOutcome.exn := by
            unfold syncWithInfo
            simp only [hbt, hov, hloop]
            simp
          rw [hsw] at h
          exact absurd h (by simp)

theorem sync_returncode_zero_or_fatal_witness :
    ((0 : Int) = 0 ∨ (0 : Int) = -1) ∧
    ((0 : Int) = 0 → false = false →
      ([Msg.mkdirMsg ("proj/payload/d") 493, Msg.syncSuccessful] : List Msg).getLast? =
        some (if (1 : Nat) = 0 then Msg.syncNoChanges else Msg.syncSuccessful)) :=
  sync_returncode_zero_or_fatal
    { projectDir := ("proj"), plistData := none, jsonData := none, yamlData := none,
      ymlData := none, bomExists := true, bomLines := [("d\t40755\t0/0\n")],
      payload := [], euid := 501, egid := 20 }
    { quiet := false, yaml := false, json := false } 0
    { fs := [(("proj/payload/d"), ⟨493, 501, 20⟩)], changes := 1,
      msgs := [Msg.mkdirMsg ("proj/payload/d") 493, Msg.syncSuccessful] }
    (by decide)

/-- C7 counterexample: a privileged run creating a missing directory
declared as 501/20 leaves it owned by the creating process (0/0), with
only the creation counted — the declared owner is neither compared nor
corrected in that pass, contradicting the claim for the
directory-creation branch. -/
theorem dir_creation_skips_ownership_cex :
    sync_from_bom_info
      { projectDir := ("proj"), plistData := none, jsonData := none, yamlData := none,
        ymlData := none, bomExists := true, bomLines := [("d\t40755\t501/20\n")],
        payload := [], euid := 0, egid := 0 }
      { quiet := false, yaml := false, json := false } =
      SyncOutcome.ret 0
        { fs := [(("proj/payload/d"), ⟨493, 0, 0⟩)], changes := 1,
          msgs := [Msg.mkdirMsg ("proj/payload/d") 493, Msg.syncSuccessful] } ∧
    (0 : Int) ≠ 501 := by
  constructor
  · decide
  · decide

/-- C7 amended: while running privileged, an entry handled by the
exists branch gets its owner and group compared against the declared
uid/gid and corrected (one change for the combined fix, one for a mode
fix); an entry handled by the directory-creation branch is created
owned by the process's euid/egid and its declared owner is not synced
in that pass. -/
theorem ownership_sync_scope (cfg : SyncCfg) (st : SyncState) (l : String) (e : BomEntry)
    (hroot : cfg.euid = 0)
    (hp : parseBomLine l = ParseRes.ok e)
    (hsc : (['.', '_']).isPrefixOf (basenameL e.path.data) = false) :
    (∀ m, lookupFS st.fs (pjoin cfg.payloadDir e.path) = some m →
      ∃ st', stepLine cfg st l = StepRes.next st' ∧
        lookupFS st'.fs (pjoin cfg.payloadDir e.path) = some ⟨e.perm, e.uid, e.gid⟩ ∧
        st'.changes = st.changes + (if m.perm = e.perm then 0 else 1) +
          (if m.uid ≠ e.uid ∨ m.gid ≠ e.gid then 1 else 0)) ∧
    (lookupFS st.fs (pjoin cfg.payloadDir e.path) = none →
      (['4']).isPrefixOf e.fullMode.data = true →
      stepLine cfg st l = StepRes.next
        { st with fs := (pjoin cfg.payloadDir e.path, ⟨e.perm, cfg.euid, cfg.egid⟩) :: st.fs,
                  changes := st.changes + 1,
                  msgs := st.msgs ++ (if cfg.quiet then [] else
                    [Msg.mkdirMsg (pjoin cfg.payloadDir e.path) e.perm]) }) := by
  constructor
  · intro m hm
    obtain ⟨st', heq, hlook, -, hch, -⟩ := processEntry_exists cfg st e m hsc hm
    refine ⟨st', ?_, ?_, ?_⟩
    · unfold stepLine
      rw [hp]
      exact heq
    · rw [hlook]
      simp [hroot]
    · rw [hch]
      simp [hroot]
  · intro hnone hdir
    unfold stepLine
    rw [hp]
    exact processEntry_mkdir cfg st e hsc hnone hdir

theorem ownership_sync_scope_witness :
    ∃ st', stepLine ⟨("proj/payload"), 0, 0, false⟩
        ⟨[(("proj/payload/x"), ⟨420, 5, 5⟩)], 0, []⟩ ("x\t100644\t0/0\n") =
        StepRes.next st' ∧
      lookupFS st'.fs ("proj/payload/x") = some ⟨420, 0, 0⟩ ∧ st'.changes = 1 := by
  obtain ⟨st', h1, h2, h3⟩ :=
    (ownership_sync_scope ⟨("proj/payload"), 0, 0, false⟩
      ⟨[(("proj/payload/x"), ⟨420, 5, 5⟩)], 0, []⟩ ("x\t100644\t0/0\n")
      { path := ("x"), fullMode := ("100644"), uid := 0, gid := 0, perm := 420 }
      (by decide) (by decide) (by decide)).1 ⟨420, 5, 5⟩ (by decide)
  refine ⟨st', h1, h2, ?_⟩
  rw [h3]
  decide

/-- Comparison definition taken from the spec's wording for the
name-templating claim: substitute the replacement for the FIRST
occurrence of the pattern only ("exactly once"). -/
def replaceOnceSpec (pat rep : List Char) : List Char → List Char
  | [] => []
  | s@(c :: r) =>
    if pat.isPrefixOf s then rep ++ s.drop pat.length
    else c :: replaceOnceSpec pat rep r

/-- C5 counterexample: on a name holding the placeholder twice, the
code substitutes both occurrences ("A2.3B2.3.pkg"), while an
exactly-once substitution per the claim would leave the second
placeholder in place — the two results differ. -/
theorem name_templating_not_exactly_once :
    read_build_info [(("name"), PyVal.str ("A$\x7bversion\x7dB$\x7bversion\x7d.pkg")),
                     (("version"), PyVal.str ("2.3"))] =
      ReadRes.ok [(("name"), PyVal.str ("A2.3B2.3.pkg")), (("version"), PyVal.str ("2.3"))] ∧
    replaceOnceSpec verPlaceholder (("2.3").data)
        (("A$\x7bversion\x7dB$\x7bversion\x7d.pkg").data) =
      ("A2.3B$\x7bversion\x7d.pkg").data ∧
    (("A2.3B2.3.pkg") : String) ≠ ("A2.3B$\x7bversion\x7d.pkg") := by
  refine ⟨by decide, by decide, by decide⟩

/-- C5 amended: the resolved version is substituted for EVERY
occurrence of the placeholder in the name (Python str.replace), and a
name without the placeholder is left unchanged regardless of the
version. -/
theorem name_templating_replaces_all (name version : String)
    (hno : containsSub verPlaceholder name.data = false) :
    read_build_info [(("name"), PyVal.str name), (("version"), PyVal.str version)] =
      ReadRes.ok [(("name"), PyVal.str name), (("version"), PyVal.str version)] ∧
    read_build_info [(("name"), PyVal.str ("A$\x7bversion\x7dB$\x7bversion\x7d.pkg")),
                     (("version"), PyVal.str ("2.3"))] =
      ReadRes.ok [(("name"), PyVal.str ("A2.3B2.3.pkg")), (("version"), PyVal.str ("2.3"))] := by
  constructor
  · simp [read_build_info, dictGet, hno]
  · decide

theorem name_templating_replaces_all_witness :
    read_build_info [(("name"), PyVal.str ("Plain.pkg")), (("version"), PyVal.str ("9.9"))] =
      ReadRes.ok [(("name"), PyVal.str ("Plain.pkg")), (("version"), PyVal.str ("9.9"))] :=
  (name_templating_replaces_all ("Plain.pkg") ("9.9") (by decide)).1

/-- C4: on a build-info file whose `ownership` value is illegal,
`validate_build_info_keys` does reject it (returns false), but
`read_build_info` discards that result and returns the dict anyway, and
`get_build_info` merges it and succeeds — carrying the illegal value
into the resolved build-info instead of aborting. -/
theorem illegal_enum_not_aborted :
    validate_build_info_keys
      [(("name"), PyVal.str ("x")), (("ownership"), PyVal.str ("nonsense"))] = false ∧
    read_build_info [(("name"), PyVal.str ("x")), (("ownership"), PyVal.str ("nonsense"))] =
      ReadRes.ok [(("name"), PyVal.str ("x")), (("ownership"), PyVal.str ("nonsense"))] ∧
    get_build_info
      { projectDir := ("proj"),
        plistData := none,
        jsonData := some (some [(("name"), PyVal.str ("x")),
                                (("ownership"), PyVal.str ("nonsense"))]),
        yamlData := none, ymlData := none, bomExists := false, bomLines := [],
        payload := [], euid := 0, egid := 0 }
      { quiet := false, yaml := false, json := false } =
      GetRes.ok
        [ (("ownership"), PyVal.str ("nonsense")),
          (("suppress_bundle_relocation"), PyVal.bool true),
          (("postinstall_action"), PyVal.str ("none")),
          (("preserve_xattr"), PyVal.bool false),
          (("name"), PyVal.str ("x")),
          (("identifier"), PyVal.str ("com.github.munki.pkg.proj")),
          (("install_location"), PyVal.str ("/")),
          (("version"), PyVal.str ("1.0")),
          (("distribution_style"), PyVal.bool false),
          (("project_dir"), PyVal.str ("proj")) ] := by
  refine ⟨by decide, by decide, by decide⟩

/-- C2 counterexample: a privileged run over a BOM declaring a missing
directory owned by 501/20 succeeds with one change (the creation,
root-owned); the second run over the resulting tree is not change-free:
it corrects the owner (one more change) and alters the tree. -/
theorem sync_not_idempotent_cex :
    sync_from_bom_info
      { projectDir := ("proj"), plistData := none, jsonData := none, yamlData := none,
        ymlData := none, bomExists := true, bomLines := [("d\t40755\t501/20\n")],
        payload := [], euid := 0, egid := 0 }
      { quiet := false, yaml := false, json := false } =
      SyncOutcome.ret 0
        { fs := [(("proj/payload/d"), ⟨493, 0, 0⟩)], changes := 1,
          msgs := [Msg.mkdirMsg ("proj/payload/d") 493, Msg.syncSuccessful] } ∧
    sync_from_bom_info
      { projectDir := ("proj"), plistData := none, jsonData := none, yamlData := none,
        ymlData := none, bomExists := true, bomLines := [("d\t40755\t501/20\n")],
        payload := [(("proj/payload/d"), ⟨493, 0, 0⟩)], euid := 0, egid := 0 }
      { quiet := false, yaml := false, json := false } =
      SyncOutcome.ret 0
        { fs := [(("proj/payload/d"), ⟨493, 501, 20⟩)], changes := 1,
          msgs := [Msg.chownMsg ("proj/payload/d") 501 20, Msg.syncSuccessful] } ∧
    ([(("proj/payload/d"), (⟨493, 501, 20⟩ : FMeta))] ≠
      [(("proj/payload/d"), (⟨493, 0, 0⟩ : FMeta))]) := by
  refine ⟨by decide, by decide, by decide⟩

theorem get_build_info_payload_irrel (p : Project) (o : Opts) (fs : List (String × FMeta)) :
    get_build_info { p with payload := fs } o = get_build_info p o := by
  cases p
  rfl

/-- C2 amended: when the BOM's tree-touching entries resolve to
pairwise-distinct payload paths, and every directory entry absent from
the tree declares the creating process's euid/egid when privileged, a
successful run followed by a second run over the tree it produced makes
a change count of 0 and leaves the tree identical. -/
theorem sync_idempotent (p : Project) (o : Opts) (st1 : SyncState)
    (h1 : sync_from_bom_info p o = SyncOutcome.ret 0 st1)
    (hnd : (parsedPaths (syncCfg p o) p.bomLines).Nodup)
    (hown : ∀ l ∈ p.bomLines, ∀ e, parseBomLine l = ParseRes.ok e →
        (['.', '_']).isPrefixOf (basenameL e.path.data) = false →
        (['4']).isPrefixOf e.fullMode.data = true →
        lookupFS p.payload (pjoin (syncCfg p o).payloadDir e.path) = none →
        p.euid = 0 → e.uid = p.euid ∧ e.gid = p.egid) :
    ∃ st2, sync_from_bom_info { p with payload := st1.fs } o = SyncOutcome.ret 0 st2 ∧
      st2.changes = 0 ∧ st2.fs = st1.fs := by
  cases hres : resolveInfoForSync p o with
  | none =>
    simp only [sync_from_bom_info, hres] at h1
    exact absurd h1 (by simp)
  | some bi =>
    simp only [sync_from_bom_info, hres] at h1
    by_cases hbe : p.bomExists = false
    · unfold syncWithInfo at h1
      rw [if_pos hbe] at h1
      exact absurd (SyncOutcome.ret.inj h1).1 (by decide)
    · have hbt : p.bomExists = true := by
        cases hx : p.bomExists
        · exact absurd hx hbe
        · rfl
      cases hov : dictGet bi ("ownership") with
      | none =>
        have hsw : syncWithInfo p o bi = SyncOutcome.exn := by
          unfold syncWithInfo
          simp [hbt, hov]
        rw [hsw] at h1
        exact absurd h1 (by simp)
      | some ov =>
        cases hloop : syncLines (syncCfg p o) p.bomLines (initState p ov) with
        | done r' stL =>
          have hsw : syncWithInfo p o bi =
              (if r' = 0 ∧ o.quiet = false then
                SyncOutcome.ret 0 { stL with msgs := stL.msgs ++
                  [if stL.changes = 0 then Msg.syncNoChanges else Msg.syncSuccessful] }
              else SyncOutcome.ret r' stL) := by
            unfold syncWithInfo
            simp only [hbt, hov, hloop]
            simp
          rw [hsw] at h1
          have hkey : syncLines (syncCfg p o) p.bomLines (initState p ov) =
              LoopRes.done 0 stL ∧ st1.fs = stL.fs := by
            by_cases hcond : r' = 0 ∧ o.quiet = false
            · rw [if_pos hcond] at h1
              obtain ⟨-, h2⟩ := SyncOutcome.ret.inj h1
              constructor
              · rw [← hcond.1]
                exact hloop
              · rw [← h2]
            · rw [if_neg hcond] at h1
              obtain ⟨hr', h2⟩ := SyncOutcome.ret.inj h1
              constructor
              · rw [hr'] at hloop
                exact hloop
              · rw [← h2]
          obtain ⟨hloop0, hfs⟩ := hkey
          have hok := syncLines_all_parse (syncCfg p o) p.bomLines (initState p ov) stL hloop0
          have hstable := syncLines_stable_final (syncCfg p o) p.bomLines (initState p ov) stL
            hloop0 hnd hown
          have hst2 : ∀ l ∈ p.bomLines,
              stableEntry (syncCfg p o) st1.fs l := by
            intro l hl
            rw [hfs]
            exact hstable l hl
          obtain ⟨ms, hloop2⟩ := syncLines_of_all_stable (syncCfg p o) p.bomLines
            ⟨st1.fs, 0, initMsgs p ov⟩ hok hst2
          have hirrel := get_build_info_payload_irrel p o st1.fs
          have hres2 : resolveInfoForSync { p with payload := st1.fs } o = some bi := by
            unfold resolveInfoForSync at hres ⊢
            rw [hirrel]
            exact hres
          have hcfg : syncCfg { p with payload := st1.fs } o = syncCfg p o := by
            cases p
            rfl
          have hlines2 : ({ p with payload := st1.fs } : Project).bomLines = p.bomLines := by
            cases p
            rfl
          have hinit2 : initState { p with payload := st1.fs } ov =
              (⟨st1.fs, 0, initMsgs p ov⟩ : SyncState) := by
            cases p
            rfl
          have hov2 : dictGet bi ("ownership") = some ov := hov
          by_cases hq : o.quiet = false
          · have hsw2 : syncWithInfo { p with payload := st1.fs } o bi =
                SyncOutcome.ret 0
                  ⟨st1.fs, 0, initMsgs p ov ++ (ms ++ [Msg.syncNoChanges])⟩ := by
              unfold syncWithInfo
              rw [hcfg, hlines2]
              simp only [hov2]
              rw [hinit2, hloop2]
              simp [hq, hbt]
            refine ⟨⟨st1.fs, 0, initMsgs p ov ++ (ms ++ [Msg.syncNoChanges])⟩, ?_, rfl, rfl⟩
            simp only [sync_from_bom_info, hres2]
            exact hsw2
          · have hq' : o.quiet = true := by
              cases hx : o.quiet
              · exact absurd hx hq
              · rfl
            have hsw2 : syncWithInfo { p with payload := st1.fs } o bi =
                SyncOutcome.ret 0 ⟨st1.fs, 0, initMsgs p ov ++ ms⟩ := by
              unfold syncWithInfo
              rw [hcfg, hlines2]
              simp only [hov2]
              rw [hinit2, hloop2]
              simp [hq', hbt]
            refine ⟨⟨st1.fs, 0, initMsgs p ov ++ ms⟩, ?_, rfl, rfl⟩
            simp only [sync_from_bom_info, hres2]
            exact hsw2
        | fatal stL =>
          have hsw : syncWithInfo p o bi = SyncOutcome.ret (-1) stL := by
            unfold syncWithInfo
            simp only [hbt, hov, hloop]
            simp
          rw [hsw] at h1
          exact absurd (SyncOutcome.ret.inj h1).1 (by decide)
        | crash stL =>
          have hsw : syncWithInfo p o bi = SyncOutcome.exn := by
            unfold syncWithInfo
            simp only [hbt, hov, hloop]
            simp
          rw [hsw] at h1
          exact absurd h1 (by simp)

theorem sync_idempotent_witness :
    ∃ st2, sync_from_bom_info
        { projectDir := ("proj"), plistData := none, jsonData := none, yamlData := none,
          ymlData := none, bomExists := true,
          bomLines := [("d\t40755\t0/0\n"), ("f\t100644\t0/0\n")],
          payload := [(("proj/payload/d"), ⟨493, 501, 20⟩), (("proj/payload/f"), ⟨420, 7, 7⟩)],
          euid := 501, egid := 20 }
        { quiet := false, yaml := false, json := false } = SyncOutcome.ret 0 st2 ∧
      st2.changes = 0 ∧
      st2.fs = [(("proj/payload/d"), (⟨493, 501, 20⟩ : FMeta)),
                (("proj/payload/f"), (⟨420, 7, 7⟩ : FMeta))] :=
  sync_idempotent
    { projectDir := ("proj"), plistData := none, jsonData := none, yamlData := none,
      ymlData := none, bomExists := true,
      bomLines := [("d\t40755\t0/0\n"), ("f\t100644\t0/0\n")],
      payload := [(("proj/payload/f"), ⟨384, 7, 7⟩)], euid := 501, egid := 20 }
    { quiet := false, yaml := false, json := false }
    ⟨[(("proj/payload/d"), ⟨493, 501, 20⟩), (("proj/payload/f"), ⟨420, 7, 7⟩)], 2,
      [Msg.mkdirMsg ("proj/payload/d") 493, Msg.chmodMsg ("proj/payload/f") 420,
       Msg.syncSuccessful]⟩
    (by decide) (by decide)
    (fun l hl e hp hsc hdir habs hr => absurd hr (by decide))
